import Mathlib

/-!
Shallow embedding of `nanonet/nanonetcall.py` (the batch-dispatch and
inference/decoding orchestration layer of the nanonet basecaller).

Conventions of the embedding:
* numpy float arrays are modelled exactly over `ℚ` (the statements are
  about the exact arithmetic the code performs; genuine float effects such
  as NaN from a division by zero are noted where they matter);
* a 2-D posterior/feature matrix is a `List (List ℚ)`, rows = events;
* external collaborators (the neural network `run`, the decoders, the
  kmer-to-sequence collapse, feature extraction) are opaque oracles passed
  as function parameters, with the contracts §6 of the spec gives them;
* a Python function that can raise an uncaught exception is embedded with
  an `Except` error constructor describing the raised fault;
* storage writes (`write_to_file`) are Fast5 I/O on an external
  collaborator; the CPU pipeline records which files it would write to,
  which is all the claims observe.
-/

namespace Nanonet

/-- A posterior or feature matrix: rows of rationals. -/
abbrev Mat : Type := List (List ℚ)

/-- Index of the first maximum of a row (`np.argmax` on axis 1):
numpy returns the first occurrence of the maximal value; an empty row is
never produced by the network, we return 0 for it. -/
def argmaxIdx : List ℚ → ℕ
  | [] => 0
  | x :: xs =>
    (xs.enum.foldl
      (fun acc p => if p.2 > acc.2 then (p.1 + 1, p.2) else acc) (0, x)).1

/-- The string `'X' * n` used for the reserved all-ambiguous kmer test. -/
def allX (n : ℕ) : String := String.mk (List.replicate n 'X')

/-- Sentinel column index `post.shape[1] - 1`.  The column count of the
(rectangular, per the spec's data model) matrix is read off the first
row. -/
def bad_kmer_idx (post : Mat) : ℕ := (post.headD []).length - 1

/-- Row mask `good_events = (np.argmax(post, axis=1) != bad_kmer)`
(nanonetcall.py lines 168-169). -/
def good_mask (post : Mat) : List Bool :=
  post.map (fun row => argmaxIdx row != bad_kmer_idx post)

/-- Row/column stripping `post = post[good_events]; post = post[:, :-1]`
(nanonetcall.py lines 170-171): keep the rows whose arg-max is not the
sentinel column, then drop the sentinel column from each kept row. -/
def survivors (post : Mat) : Mat :=
  (post.filter (fun row => argmaxIdx row != bad_kmer_idx post)).map
    List.dropLast

/-- One row of `post /= weights; post = min_prob + (1.0 - min_prob) * post`
(nanonetcall.py lines 175-177): divide by the row sum, then apply the
probability floor.  Note the source has no guard on a zero row sum: in ℚ
the division `x / 0` is `0` (numpy would emit non-finite values, with
warnings suppressed at module level, line 26). -/
def norm_floor_row (min_prob : ℚ) (row : List ℚ) : List ℚ :=
  let w := row.sum
  row.map (fun x => min_prob + (1 - min_prob) * (x / w))

/-- Outcome of `clean_post` (nanonetcall.py lines 163-178).
`empty` is the `(None, None)` return; `nameError` is the uncaught
`NameError` raised at line 178 when the sentinel branch was not taken and
the local `good_events` was therefore never bound; `indexError` is the
uncaught `IndexError` of `kmers[-1]` on an empty kmer table. -/
inductive CleanResult : Type
  | empty : CleanResult
  | ok (post : Mat) (good_events : List Bool) : CleanResult
  | nameError : CleanResult
  | indexError : CleanResult
  deriving Repr, DecidableEq

/-- The function `clean_post(post, kmers, min_prob)` of nanonetcall.py
(lines 163-178), translated branch for branch. -/
def clean_post (post : Mat) (kmers : List String) (min_prob : ℚ) :
    CleanResult :=
  match kmers.getLast? with
  | none => .indexError
  | some last =>
    if last = allX last.length then
      if survivors post = [] then .empty
      else .ok ((survivors post).map (norm_floor_row min_prob))
        (good_mask post)
    else .nameError

/-- Outcome of the spec's cleaner contract (§4.1): `Empty`, a
`DegenerateRow` error, or the cleaned matrix with its good-event mask. -/
inductive CleanSpecResult : Type
  | empty : CleanSpecResult
  | degenerateRow : CleanSpecResult
  | ok (post : Mat) (good_events : List Bool) : CleanSpecResult
  deriving Repr, DecidableEq

/-- Modelled from the spec: the PosteriorCleaner contract of §4.1, which is
absent from the source in this form.  Step 1 strips the sentinel class and
returns `Empty` when no row survives; step 2 otherwise keeps every row
with an all-true mask; step 3 row-normalizes with a defensive fail-fast
returning `DegenerateRow` on a zero-sum row; step 4 applies the floor
transform. -/
def clean_spec (post : Mat) (kmers : List String) (min_prob : ℚ) :
    CleanSpecResult :=
  let sentinel : Bool :=
    match kmers.getLast? with
    | some last => last == allX last.length
    | none => false
  let post1 : Mat := if sentinel then survivors post else post
  let mask : List Bool :=
    if sentinel then good_mask post else List.replicate post.length true
  if sentinel && post1.isEmpty then .empty
  else if post1.any (fun row => row.sum == 0) then .degenerateRow
  else .ok (post1.map (norm_floor_row min_prob)) mask

/-- The `(fname, seq, score, n_events), (network_time, decode_time)` tuple
a successful pipeline invocation returns (nanonetcall.py line 160). -/
abbrev Item : Type := (String × String × ℚ × ℕ) × (ℚ × ℚ)

/-- Uncaught exceptions of `process_read`: the two `clean_post` faults, and
`noneDecode` for the decode stage being invoked on the `None` posterior
after `clean_post` returned `(None, None)` — the decode collaborators take
a matrix per §6, so a `None` argument is a fault, not a `Failure`. -/
inductive PErr : Type
  | nameError : PErr
  | indexError : PErr
  | noneDecode : PErr
  deriving Repr, DecidableEq

/-- Return value of a `process_read` that did not raise: `none` is the
Python `None` (per-read failure), `postOnly` is the early `return post`,
and `basecall` is the full result tuple. -/
inductive PRes : Type
  | postOnly (post : Mat) : PRes
  | basecall (data : Item) : PRes
  deriving Repr, DecidableEq

/-- The function `process_read` of nanonetcall.py (lines 109-160), the CPU
unit pipeline.  `extractRes` is the outcome of the
`make_basecall_input_multi` call for this read, an external collaborator:
`none` when the guarded block at lines 123-130 caught an exception (spec
§6: extraction "fails per-item").  `network_run`, the two decoders, the
transition estimator with its `np.log(η + ·)` wrapper and
`kmers_to_sequence` are opaque collaborators.  The second component of the
result lists the files `write_to_file` was invoked on. -/
def process_read {Ev Tr : Type}
    (network_run : Mat → Mat)
    (decode_homogenous : Mat → ℚ × List ℕ)
    (fast_estimate_transitions : Mat → Option Tr → Tr)
    (log_eta : Tr → Tr)
    (decode_profile : Mat → Tr → ℚ × List ℕ)
    (kmers_to_sequence : List String → String)
    (kmers : List String)
    (fast5 : String)
    (extractRes : Option (String × Mat × Ev))
    (min_prob : ℚ) (trans : Option Tr)
    (post_only write_events fast_decode : Bool)
    (network_time decode_time : ℚ) :
    Except PErr (Option PRes × List String) :=
  match extractRes with
  | none => .ok (none, [])
  | some (fname, features, _events) =>
    let post0 := network_run features
    match clean_post post0 kmers min_prob with
    | .nameError => .error .nameError
    | .indexError => .error .indexError
    | .empty =>
      if post_only then .ok (none, [])
      else .error .noneDecode
    | .ok post _good_events =>
      if post_only then .ok (some (.postOnly post), [])
      else
        let sd :=
          if fast_decode then decode_homogenous post
          else decode_profile post
            (log_eta (fast_estimate_transitions post trans))
        let kmer_path := sd.2.map (fun i => kmers.getD i "")
        let seq := kmers_to_sequence kmer_path
        let writes := if write_events then [fast5] else []
        .ok (some (.basecall ((fname, seq, sd.1, features.length),
          (network_time, decode_time))), writes)

/-- Uncaught exceptions of `process_read_opencl`: `cleanFault` for a
`clean_post` exception raised inside the generator at lines 261-263, and
`noneDecode` for a `(None, None)` clean outcome reaching the decode
stage. -/
inductive BatchErr : Type
  | cleanFault : BatchErr
  | noneDecode : BatchErr
  deriving Repr, DecidableEq

/-- Matrix component of an `ok` clean outcome. -/
def CleanResult.matOf : CleanResult → Option Mat
  | .ok m _ => some m
  | _ => none

/-- Mask component of an `ok` clean outcome. -/
def CleanResult.maskOf : CleanResult → Option (List Bool)
  | .ok _ mask => some mask
  | _ => none

/-- Whether the clean outcome is a raised exception. -/
def CleanResult.isCrash : CleanResult → Bool
  | .nameError => true
  | .indexError => true
  | _ => false

/-- Whether the clean outcome is the `(None, None)` return. -/
def CleanResult.isEmptyRes : CleanResult → Bool
  | .empty => true
  | _ => false

/-- Python's 4-ary `zip`, truncating at the shortest list. -/
def zip4 {α β γ δ : Type} :
    List α → List β → List γ → List δ → List (α × β × γ × δ)
  | a :: as, b :: bs, c :: cs, d :: ds => (a, b, c, d) :: zip4 as bs cs ds
  | _, _, _, _ => []

/-- The function `process_read_opencl` of nanonetcall.py (lines 217-310),
the GPU batch pipeline.  Modelled from the spec where collaborators are
outside src/: `extract` is the per-read outcome of the batched
`make_basecall_input_multi` generator, which per §4.3/§6 yields the
successful reads in input order and skips failed ones (so the batch
narrows to `n_files ≤ len(fast5_list)`); the batched `network.run` and
`decode_profile_opencl` device calls are per-item maps of the
corresponding opaque oracles (§6 gives them element-wise contracts, the
batching only amortizes dispatch).  OpenCL context/queue setup is device
bookkeeping with no bearing on the returned data and is omitted.  The
event-table writes (lines 294-301) are storage I/O on an external
collaborator and are not part of the returned value.  `network_total` and
`decode_total` are the two wall-clock phase measurements
(`now() - t0`). -/
def process_read_opencl {α Ev Tr : Type}
    (extract : α → Option (String × Mat × Ev))
    (network_run : Mat → Mat)
    (decode_homogenous : Mat → ℚ × List ℕ)
    (fast_estimate_transitions : Mat → Option Tr → Tr)
    (log_eta : Tr → Tr)
    (decode_profile : Mat → Tr → ℚ × List ℕ)
    (kmers_to_sequence : List String → String)
    (kmers : List String)
    (fast5_list : List α)
    (min_prob : ℚ) (trans : Option Tr)
    (fast_decode : Bool)
    (network_total decode_total : ℚ) :
    Except BatchErr (List (Option Item)) :=
  let extracted := fast5_list.filterMap extract
  if extracted.isEmpty then
    -- unpacking `zip(*(<empty generator>))` raises, caught by the bare
    -- `except:` at line 235, which returns `[None] * len(fast5_list)`
    .ok (List.replicate fast5_list.length none)
  else
    let file_list := extracted.map (fun e => e.1)
    let features_list := extracted.map (fun e => e.2.1)
    let n_files := file_list.length
    let post_list := features_list.map network_run
    let cleaned := post_list.map (fun p => clean_post p kmers min_prob)
    if cleaned.any (fun c => c.isCrash) then .error .cleanFault
    else if cleaned.any (fun c => c.isEmptyRes) then .error .noneDecode
    else
      let post_list2 := cleaned.filterMap CleanResult.matOf
      let sd :=
        if fast_decode then post_list2.map decode_homogenous
        else post_list2.map (fun post =>
          decode_profile post (log_eta (fast_estimate_transitions post trans)))
      let score_list := sd.map Prod.fst
      let states_list := sd.map Prod.snd
      let network_time_list :=
        List.replicate n_files (network_total / (n_files : ℚ))
      let decode_time_list :=
        List.replicate n_files (decode_total / (n_files : ℚ))
      let kmer_path_list :=
        states_list.map (fun states => states.map (fun i => kmers.getD i ""))
      let seq_list := kmer_path_list.map kmers_to_sequence
      let data := zip4 file_list seq_list score_list
        (features_list.map List.length)
      let timings := network_time_list.zip decode_time_list
      let ret := (data.zip timings).map some
      .ok (ret ++ List.replicate (fast5_list.length - n_files) none)

/-- Accumulator state of the result loop in `main`
(nanonetcall.py lines 363-396): the fasta records written so far and the
running counters. -/
structure AggState : Type where
  records : List (String × String)
  n_reads : ℕ
  n_bases : ℕ
  n_events : ℕ
  t_network : ℚ
  t_decode : ℚ
  deriving Repr, DecidableEq

/-- Initial accumulator (lines 363-366). -/
def initAgg : AggState := ⟨[], 0, 0, 0, 0, 0⟩

/-- One iteration of the `for result in mapper` loop (lines 385-395):
a `None` result is skipped, a success writes one fasta record and bumps
every counter.  `short_name` is the external `short_names` helper. -/
def agg_step (short_name : String → String) (st : AggState)
    (result : Option Item) : AggState :=
  match result with
  | none => st
  | some ((fname, basecall, _score, n_ev), (tn, td)) =>
    { records := st.records ++ [(short_name fname, basecall)]
      n_reads := st.n_reads + 1
      n_bases := st.n_bases + basecall.length
      n_events := st.n_events + n_ev
      t_network := st.t_network + tn
      t_decode := st.t_decode + td }

/-- The whole result loop, folded over the result stream. -/
def aggregate (short_name : String → String) (results : List (Option Item)) :
    AggState :=
  results.foldl (agg_step short_name) initAgg

/-- The guarded throughput report (lines 398-407): emitted only when
`n_reads > 0`; the four rates are `n_bases/1000/network`,
`n_events/1000/network`, `n_bases/1000/decoding`,
`n_events/1000/decoding`. -/
def throughput_report (st : AggState) : Option ((ℚ × ℚ) × (ℚ × ℚ)) :=
  if 0 < st.n_reads then
    some (((st.n_bases : ℚ) / 1000 / st.t_network,
           (st.n_events : ℚ) / 1000 / st.t_network),
          ((st.n_bases : ℚ) / 1000 / st.t_decode,
           (st.n_events : ℚ) / 1000 / st.t_decode))
  else none

/-- Resolved configuration relevant to worker construction in `main`
(lines 349-361): the parsed `--platforms` list (`none` when the flag was
absent; argparse `nargs="+"` makes an empty list unrepresentable), the
`--jobs` count and the `--exc_opencl` flag. -/
structure Config : Type where
  platforms : Option (List (String × ℕ × ℕ))
  jobs : ℕ
  exc_opencl : Bool
  deriving Repr, DecidableEq

/-- Number of CPU workers appended at lines 350-352. -/
def numCpuWorkers (c : Config) : ℕ := if c.exc_opencl then 0 else c.jobs

/-- Number of device workers appended at lines 353-361. -/
def numDevices (c : Config) : ℕ := (c.platforms.getD []).length

/-- Total `len(workers)`. -/
def numWorkers (c : Config) : ℕ := numCpuWorkers c + numDevices c

/-- The three execution topologies of lines 368-381. -/
inductive Strategy : Type
  | cpuOnly : Strategy
  | singleDevice : Strategy
  | heterogeneous : Strategy
  deriving Repr, DecidableEq

/-- The strategy selection of lines 369-381: `args.platforms is None` ⇒
CPU-only `tang_imap`; `len(workers) == 1` ⇒ the single-device
chunk-and-flatten path; otherwise the heterogeneous `JobQueue`. -/
def selectStrategy (c : Config) : Strategy :=
  match c.platforms with
  | none => .cpuOnly
  | some _ => if numWorkers c = 1 then .singleDevice else .heterogeneous

/-- Modelled from the spec: `group_by_list(fast5_files, [n_files])`
(nanonet.util, not under src/) per §4.4 groups the input stream into
fixed-size chunks of the device capacity, the last chunk possibly
short. -/
def chunksOf {α : Type} (n : ℕ) (xs : List α) : List (List α) :=
  if h : xs.isEmpty then []
  else if hn : n = 0 then [xs]
  else xs.take n :: chunksOf n (xs.drop n)
termination_by xs.length
decreasing_by
  have hx : xs ≠ [] := by simpa using h
  simp only [List.length_drop]
  exact Nat.sub_lt (List.length_pos.mpr hx) (Nat.pos_of_ne_zero hn)

/-- The single-device mapper
`itertools.chain.from_iterable(itertools.imap(worker, fast5_files))`
(line 378): run the worker on each chunk in order and concatenate the
per-chunk result lists; an exception in any chunk propagates. -/
def imap_chain {α β ε : Type} (worker : List α → Except ε (List β)) :
    List (List α) → Except ε (List β)
  | [] => .ok []
  | c :: cs =>
    match worker c with
    | .error e => .error e
    | .ok r =>
      match imap_chain worker cs with
      | .error e => .error e
      | .ok rs => .ok (r ++ rs)

/-- The whole single fixed-capacity device path of lines 373-378: chunk
the input, map the batch worker, flatten in chunk order. -/
def single_device_results {α β ε : Type}
    (worker : List α → Except ε (List β)) (n : ℕ) (files : List α) :
    Except ε (List β) :=
  imap_chain worker (chunksOf n files)

/-! ### Basic lemmas about the cleaner -/

/-- Unfolding lemma: `clean_post` when the kmer table is nonempty. -/
theorem clean_post_some {post : Mat} {kmers : List String}
    {min_prob : ℚ} (last : String) (h : kmers.getLast? = some last) :
    clean_post post kmers min_prob =
      (if last = allX last.length then
        if survivors post = [] then .empty
        else .ok ((survivors post).map (norm_floor_row min_prob))
          (good_mask post)
      else .nameError) := by
  unfold clean_post
  rw [h]

/-- Case analysis lemma: the successful branch of `clean_post`. -/
theorem clean_post_eq_ok {post : Mat} {kmers : List String}
    {min_prob : ℚ} (last : String)
    (h1 : kmers.getLast? = some last) (h2 : last = allX last.length)
    (h3 : survivors post ≠ []) :
    clean_post post kmers min_prob =
      .ok ((survivors post).map (norm_floor_row min_prob))
        (good_mask post) := by
  rw [clean_post_some last h1, if_pos h2, if_neg h3]

/-- Inversion: a successful `clean_post` outcome is the floored
normalization of the surviving rows, paired with the good-event mask. -/
theorem clean_post_ok_inv {post : Mat} {kmers : List String}
    {min_prob : ℚ} {m : Mat} {mask : List Bool}
    (h : clean_post post kmers min_prob = .ok m mask) :
    m = (survivors post).map (norm_floor_row min_prob) ∧
      mask = good_mask post := by
  cases hk : kmers.getLast? with
  | none => unfold clean_post at h; rw [hk] at h; simp at h
  | some last =>
    rw [clean_post_some last hk] at h
    by_cases h2 : last = allX last.length
    · rw [if_pos h2] at h
      by_cases h3 : survivors post = []
      · rw [if_pos h3] at h; simp at h
      · rw [if_neg h3] at h
        simp only [CleanResult.ok.injEq] at h
        exact ⟨h.1.symm, h.2.symm⟩
    · rw [if_neg h2] at h; simp at h

/-- Sum of an affine image of a row. -/
theorem sum_map_affine (c d w : ℚ) :
    ∀ row : List ℚ,
      (row.map (fun x => c + d * (x / w))).sum
        = c * row.length + d * (row.sum / w)
  | [] => by simp
  | x :: xs => by
    simp only [List.map_cons, List.sum_cons, sum_map_affine c d w xs,
      List.length_cons, List.sum_cons]
    push_cast
    ring

/-- The floored normalization of a row with nonzero sum adds
`(K-1)·min_prob` to the unit mass: the row sum becomes
`min_prob * K + (1 - min_prob)`. -/
theorem norm_floor_row_sum (min_prob : ℚ) (row : List ℚ)
    (hw : row.sum ≠ 0) :
    (norm_floor_row min_prob row).sum
      = min_prob * row.length + (1 - min_prob) := by
  unfold norm_floor_row
  rw [sum_map_affine, div_self hw, mul_one]

/-- Every entry of the floored normalization of a nonnegative row with
positive sum is at least the floor. -/
theorem norm_floor_row_entry_ge (min_prob : ℚ) (row : List ℚ)
    (hε1 : min_prob ≤ 1) (hw : 0 < row.sum)
    (hnn : ∀ x ∈ row, 0 ≤ x) :
    ∀ y ∈ norm_floor_row min_prob row, min_prob ≤ y := by
  intro y hy
  unfold norm_floor_row at hy
  simp only [List.mem_map] at hy
  obtain ⟨x, hx, rfl⟩ := hy
  have h1 : 0 ≤ x / row.sum := div_nonneg (hnn x hx) (le_of_lt hw)
  nlinarith

/-- A zero-sum row is divided by zero (in ℚ, every quotient is 0; in the
float code, NaN with warnings suppressed) and the floor turns it into the
constant-`min_prob` row. -/
theorem norm_floor_row_zero (min_prob : ℚ) (row : List ℚ)
    (hz : row.sum = 0) :
    norm_floor_row min_prob row = List.replicate row.length min_prob := by
  unfold norm_floor_row
  simp [hz, List.map_const']

/-- Rows surviving the sentinel strip are `dropLast`s of original rows. -/
theorem mem_survivors {post : Mat} {r : List ℚ} (h : r ∈ survivors post) :
    ∃ row ∈ post, r = row.dropLast := by
  unfold survivors at h
  simp only [List.mem_map, List.mem_filter] at h
  obtain ⟨row, ⟨hrow, _⟩, rfl⟩ := h
  exact ⟨row, hrow, rfl⟩

/-! ### Claims C3, C4, C5 -/

/-- Claim C3, counterexample.  On the posterior `[[1, 1, 0]]` with symbol
classes `["A", "C", "X"]` and floor `εmin = 1e-5`, `clean_post` returns a
single cleaned row whose two entries are `100001/200000` each, so the row
sums to `1 + 1e-5`: the deviation from 1 is `1e-5`, which exceeds the
claimed tolerance `1e-6`.  The floor transform does not preserve the unit
row sum. -/
theorem claim_C3_counterexample :
    clean_post [[1, 1, 0]] ["A", "C", "X"] (1/100000) =
      CleanResult.ok [[100001/200000, 100001/200000]] [true] ∧
    ¬ |((100001 : ℚ)/200000 + 100001/200000 + 0) - 1| ≤ 1/1000000 := by
  constructor
  · rw [clean_post_eq_ok "X" (by decide) (by decide) (by decide)]
    have hs : survivors [[1, 1, 0]] = [[1, 1]] := by decide
    have hm : good_mask [[1, 1, 0]] = [true] := by decide
    rw [hs, hm]
    unfold norm_floor_row
    norm_num
  · rw [abs_le]
    norm_num

/-- Claim C3, amended.  For nonnegative input with positive surviving row
sums, every cleaned row has all entries at least `min_prob`, and its sum is
exactly `min_prob * K + (1 - min_prob)` where `K` is the row's column
count — i.e. `1 + (K-1)·min_prob`, not 1: the pre-floor normalization sums
to 1 and the floor adds `(K-1)·min_prob`. -/
theorem claim_C3_amended (post : Mat) (kmers : List String)
    (min_prob : ℚ) (m : Mat) (mask : List Bool)
    (hε1 : min_prob ≤ 1)
    (hnn : ∀ row ∈ post, ∀ x ∈ row, 0 ≤ x)
    (hpos : ∀ r ∈ survivors post, 0 < r.sum)
    (h : clean_post post kmers min_prob = .ok m mask) :
    ∀ row ∈ m, row.sum = min_prob * row.length + (1 - min_prob) ∧
      ∀ x ∈ row, min_prob ≤ x := by
  obtain ⟨hm, -⟩ := clean_post_ok_inv h
  subst hm
  intro row hrow
  simp only [List.mem_map] at hrow
  obtain ⟨r, hr, rfl⟩ := hrow
  have hw : 0 < r.sum := hpos r hr
  have hrn : ∀ x ∈ r, 0 ≤ x := by
    obtain ⟨row0, hrow0, rfl⟩ := mem_survivors hr
    exact fun x hx => hnn row0 hrow0 x (List.dropLast_subset row0 hx)
  constructor
  · rw [norm_floor_row_sum min_prob r (ne_of_gt hw)]
    unfold norm_floor_row
    simp
  · exact norm_floor_row_entry_ge min_prob r hε1 hw hrn

/-- Claim C3, witness for the amended theorem at the concrete input
`[[1, 1, 0]]`, `["A", "C", "X"]`, `εmin = 1e-5`. -/
theorem claim_C3_amended_witness :
    ((1 : ℚ)/100000 ≤ 1) ∧
    (∀ row ∈ ([[1, 1, 0]] : Mat), ∀ x ∈ row, (0 : ℚ) ≤ x) ∧
    (∀ r ∈ survivors [[1, 1, 0]], (0 : ℚ) < r.sum) ∧
    clean_post [[1, 1, 0]] ["A", "C", "X"] (1/100000) =
      CleanResult.ok [[100001/200000, 100001/200000]] [true] ∧
    (∀ row ∈ ([[100001/200000, 100001/200000]] : Mat),
      row.sum = (1/100000 : ℚ) * row.length + (1 - 1/100000) ∧
      ∀ x ∈ row, (1/100000 : ℚ) ≤ x) := by
  have hok : clean_post [[1, 1, 0]] ["A", "C", "X"] (1/100000) =
      CleanResult.ok [[100001/200000, 100001/200000]] [true] := by
    rw [clean_post_eq_ok "X" (by decide) (by decide) (by decide)]
    have hs : survivors [[1, 1, 0]] = [[1, 1]] := by decide
    have hm : good_mask [[1, 1, 0]] = [true] := by decide
    rw [hs, hm]
    unfold norm_floor_row
    norm_num
  have hpos : ∀ r ∈ survivors [[1, 1, 0]], (0 : ℚ) < r.sum := by
    rw [show survivors [[1, 1, 0]] = [[1, 1]] from by decide]
    intro r hr
    rw [List.mem_singleton] at hr
    subst hr
    norm_num
  refine ⟨by norm_num, by decide, hpos, hok, ?_⟩
  exact claim_C3_amended [[1, 1, 0]] ["A", "C", "X"] (1/100000)
    [[100001/200000, 100001/200000]] [true]
    (by norm_num) (by decide) hpos hok

/-- Claim C4: when the symbol-class table does not end with the
all-ambiguous sentinel, `clean_post` does not return the matrix with an
all-true mask — it raises `NameError`, because the local `good_events` is
only ever bound inside the sentinel branch yet is referenced by the
`return` at line 178. -/
theorem claim_C4 :
    clean_post [[1, 2], [3, 4]] ["AA", "AC"] (1/100000) =
      CleanResult.nameError := by decide

/-- Claim C5, counterexample.  On `[[0, 0, 0], [1, 2, 3]]` with classes
`["A", "C", "X"]`, the zero row survives the sentinel strip (its arg-max,
index 0, is not the sentinel) while the nonzero row is stripped; its row
sum is 0 and the source divides by it anyway — no `DegenerateRow` error is
signalled, `clean_post` returns an `ok` matrix (whose degenerate row, NaN
in the float code, is the constant floor row in exact arithmetic), whereas
the spec-modelled cleaner returns `DegenerateRow`. -/
theorem claim_C5_counterexample :
    clean_post [[0, 0, 0], [1, 2, 3]] ["A", "C", "X"] (1/100000) =
      CleanResult.ok [[1/100000, 1/100000]] [true, false] ∧
    clean_spec [[0, 0, 0], [1, 2, 3]] ["A", "C", "X"] (1/100000) =
      CleanSpecResult.degenerateRow := by
  constructor
  · rw [clean_post_eq_ok "X" (by decide) (by decide) (by decide)]
    have hs : survivors [[0, 0, 0], [1, 2, 3]] = [[0, 0]] := by decide
    have hm : good_mask [[0, 0, 0], [1, 2, 3]] = [true, false] := by decide
    rw [hs, hm]
    unfold norm_floor_row
    norm_num
  · unfold clean_spec
    rw [show survivors [[0, 0, 0], [1, 2, 3]] = [[0, 0]] from by decide]
    norm_num [show allX "X".length = "X" from by decide,
      List.mem_singleton, List.sum_cons, List.sum_nil]

/-- Claim C5, amended.  `clean_post` has no zero-row guard: whenever a
surviving row sums to zero, cleaning still returns `ok` (never a
`DegenerateRow`-style failure) and the zero-sum row is mapped by the
unguarded division to the constant-`min_prob` row (NaN in floats, with
warnings suppressed). -/
theorem claim_C5_amended (post : Mat) (kmers : List String)
    (min_prob : ℚ) (r : List ℚ) (last : String)
    (h1 : kmers.getLast? = some last) (h2 : last = allX last.length)
    (hr : r ∈ survivors post) (hz : r.sum = 0) :
    ∃ m mask, clean_post post kmers min_prob = CleanResult.ok m mask ∧
      List.replicate r.length min_prob ∈ m := by
  have h3 : survivors post ≠ [] := List.ne_nil_of_mem hr
  refine ⟨_, _, clean_post_eq_ok last h1 h2 h3, ?_⟩
  rw [← norm_floor_row_zero min_prob r hz]
  exact List.mem_map_of_mem _ hr

/-- Claim C5, witness for the amended theorem at the concrete input of the
counterexample. -/
theorem claim_C5_amended_witness :
    (["A", "C", "X"].getLast? = some "X") ∧
    ("X" = allX "X".length) ∧
    ([(0 : ℚ), 0] ∈ survivors [[0, 0, 0], [1, 2, 3]]) ∧
    (([(0 : ℚ), 0]).sum = 0) ∧
    ∃ m mask,
      clean_post [[0, 0, 0], [1, 2, 3]] ["A", "C", "X"] (1/100000) =
        CleanResult.ok m mask ∧
      List.replicate 2 ((1 : ℚ)/100000) ∈ m := by
  refine ⟨by decide, by decide, by decide, by simp, ?_⟩
  exact claim_C5_amended [[0, 0, 0], [1, 2, 3]] ["A", "C", "X"]
    (1/100000) [0, 0] "X" (by decide) (by decide) (by decide) (by simp)

/-! ### Claims C2 and C10: the CPU unit pipeline -/

/-- Unfolding lemma: `process_read` on a read whose cleaning comes out
empty returns `None` under `post_only` and otherwise passes the `None`
posterior to the decode stage, a fault. -/
theorem process_read_clean_empty {Ev Tr : Type} (nr : Mat → Mat)
    (dh : Mat → ℚ × List ℕ) (fet : Mat → Option Tr → Tr) (le : Tr → Tr)
    (dp : Mat → Tr → ℚ × List ℕ) (kts : List String → String)
    (kmers : List String) (fast5 : String) (fname : String)
    (features : Mat) (events : Ev) (min_prob : ℚ) (trans : Option Tr)
    (post_only write_events fast_decode : Bool) (tN tD : ℚ)
    (h : clean_post (nr features) kmers min_prob = .empty) :
    process_read nr dh fet le dp kts kmers fast5
      (some (fname, features, events)) min_prob trans post_only
      write_events fast_decode tN tD =
      (if post_only then .ok (none, []) else .error .noneDecode) := by
  simp only [process_read]
  rw [h]

/-- Unfolding lemma: `process_read` with `post_only` set, on a read whose
cleaning succeeds, stops right after cleaning. -/
theorem process_read_post_only {Ev Tr : Type} (nr : Mat → Mat)
    (dh : Mat → ℚ × List ℕ) (fet : Mat → Option Tr → Tr) (le : Tr → Tr)
    (dp : Mat → Tr → ℚ × List ℕ) (kts : List String → String)
    (kmers : List String) (fast5 : String) (fname : String)
    (features : Mat) (events : Ev) (min_prob : ℚ) (trans : Option Tr)
    (write_events fast_decode : Bool) (tN tD : ℚ) (m : Mat)
    (mask : List Bool)
    (h : clean_post (nr features) kmers min_prob = .ok m mask) :
    process_read nr dh fet le dp kts kmers fast5
      (some (fname, features, events)) min_prob trans true
      write_events fast_decode tN tD = .ok (some (.postOnly m), []) := by
  simp only [process_read]
  rw [h]
  simp

/-- Claim C2, counterexample.  Extraction succeeds on the read
`[[0, 1]]` with classes `["A", "X"]`, but every row's arg-max is the
sentinel, so `clean_post` returns `(None, None)`; `process_read` does not
convert this to a `Failure` — it falls through to the decode stage with a
`None` posterior, which raises (the decode collaborators require a matrix,
§6), i.e. a propagated exception rather than a per-read failure. -/
theorem claim_C2_counterexample :
    process_read id (fun _ => (0, []))
      ((fun _ _ => ()) : Mat → Option Unit → Unit) id (fun _ _ => (0, []))
      (fun _ => "") ["A", "X"] "r.fast5"
      (some ("r", [[0, 1]], ()) : Option (String × Mat × Unit)) (1/100000)
      none false false false 0 0 = Except.error PErr.noneDecode := by
  have hclean : clean_post (id ([[0, 1]] : Mat)) ["A", "X"] (1/100000) =
      .empty := by
    rw [clean_post_some "X" (by decide), if_pos (by decide),
      if_pos (by decide)]
  rw [process_read_clean_empty _ _ _ _ _ _ _ _ _ _ _ _ _ _ _ _ _ _ hclean]
  rfl

/-- Claim C2, amended.  A feature-extraction failure (the only failure the
`try` at lines 123-130 guards) yields the `None` per-read failure result
and never a propagated exception; the cleaner's `Empty` outcome, by
contrast, is not converted to a failure (see the counterexample), and
nothing guards the inference or cleaning stages. -/
theorem claim_C2_amended {Ev Tr : Type} (nr : Mat → Mat)
    (dh : Mat → ℚ × List ℕ) (fet : Mat → Option Tr → Tr) (le : Tr → Tr)
    (dp : Mat → Tr → ℚ × List ℕ) (kts : List String → String)
    (kmers : List String) (fast5 : String) (min_prob : ℚ)
    (trans : Option Tr) (post_only write_events fast_decode : Bool)
    (tN tD : ℚ) :
    process_read nr dh fet le dp kts kmers fast5
      (none : Option (String × Mat × Ev)) min_prob trans post_only
      write_events fast_decode tN tD = .ok (none, []) := rfl

/-- Claim C10: with `post_only` set and cleaning successful,
`process_read` returns exactly the cleaned posterior matrix and writes to
no file; the result does not depend on either decoder, the transition
estimator, the sequence collapse, or the `write_events` flag, because the
function returns at line 140 before any of them runs. -/
theorem claim_C10 {Ev Tr : Type} (nr : Mat → Mat)
    (dh : Mat → ℚ × List ℕ) (fet : Mat → Option Tr → Tr) (le : Tr → Tr)
    (dp : Mat → Tr → ℚ × List ℕ) (kts : List String → String)
    (kmers : List String) (fast5 : String) (fname : String)
    (features : Mat) (events : Ev) (min_prob : ℚ) (trans : Option Tr)
    (write_events fast_decode : Bool) (tN tD : ℚ) (m : Mat)
    (mask : List Bool)
    (h : clean_post (nr features) kmers min_prob = .ok m mask) :
    process_read nr dh fet le dp kts kmers fast5
      (some (fname, features, events)) min_prob trans true
      write_events fast_decode tN tD = .ok (some (.postOnly m), []) :=
  process_read_post_only nr dh fet le dp kts kmers fast5 fname features
    events min_prob trans write_events fast_decode tN tD m mask h

/-- Claim C10, witness at a concrete read with `write_events` on and both
decoders replaced by distinct constants, showing the post-only result. -/
theorem claim_C10_witness :
    clean_post (id ([[1, 0]] : Mat)) ["A", "X"] (1/100000) =
      CleanResult.ok [[1]] [true] ∧
    process_read id (fun _ => (5, [0]))
      ((fun _ _ => ()) : Mat → Option Unit → Unit) id (fun _ _ => (7, [1]))
      (fun _ => "SEQ") ["A", "X"] "r.fast5"
      (some ("r", [[1, 0]], ()) : Option (String × Mat × Unit)) (1/100000)
      none true true false 3 4 = Except.ok (some (PRes.postOnly [[1]]), []) := by
  have hclean : clean_post (id ([[1, 0]] : Mat)) ["A", "X"] (1/100000) =
      CleanResult.ok [[1]] [true] := by
    simp only [id_eq]
    rw [clean_post_eq_ok "X" (by decide) (by decide) (by decide)]
    rw [show survivors [[1, 0]] = [[1]] from by decide,
      show good_mask [[1, 0]] = [true] from by decide]
    unfold norm_floor_row
    norm_num
  exact ⟨hclean, claim_C10 id (fun _ => (5, [0])) (fun _ _ => ()) id
    (fun _ _ => (7, [1])) (fun _ => "SEQ") ["A", "X"] "r.fast5" "r"
    [[1, 0]] () (1/100000) none true false 3 4 [[1]] [true] hclean⟩

/-! ### Claim C6: strategy selection -/

/-- Claim C6: the topology choice at lines 369-381 is a pure function of
the resolved configuration.  Zero devices (no `--platforms` flag; argparse
`nargs="+"` rules out an empty platform list) selects the CPU-only path;
one device with zero CPU workers makes `len(workers) == 1` and selects the
single fixed-capacity device path; one device plus at least one CPU
worker, or two or more devices, gives `len(workers) ≥ 2` and selects the
heterogeneous path. -/
theorem claim_C6 (c : Config)
    (hp : ∀ ps, c.platforms = some ps → ps ≠ []) :
    (numDevices c = 0 → selectStrategy c = .cpuOnly) ∧
    (numDevices c = 1 ∧ numCpuWorkers c = 0 →
      selectStrategy c = .singleDevice) ∧
    ((numDevices c = 1 ∧ 1 ≤ numCpuWorkers c) ∨ 2 ≤ numDevices c →
      selectStrategy c = .heterogeneous) := by
  obtain ⟨pl, jobs, exc⟩ := c
  cases pl with
  | none =>
    refine ⟨fun _ => rfl, fun h => ?_, fun h => ?_⟩
    · simp [numDevices] at h
    · rcases h with ⟨h1, -⟩ | h2
      · simp [numDevices] at h1
      · simp [numDevices] at h2
  | some ps =>
    have hne : ps ≠ [] := hp ps rfl
    have hlen : 1 ≤ ps.length := by
      cases ps with
      | nil => exact absurd rfl hne
      | cons a l => simp
    refine ⟨fun h => ?_, fun h => ?_, fun h => ?_⟩
    · simp only [numDevices, Option.getD] at h
      omega
    · obtain ⟨h1, h2⟩ := h
      simp only [selectStrategy, if_pos]
      rw [if_pos]
      simp only [numWorkers, h2, numDevices, Option.getD] at *
      omega
    · simp only [selectStrategy]
      rw [if_neg]
      simp only [numWorkers, numDevices, Option.getD] at *
      omega

/-- Claim C6, witness: one device and `--exc_opencl` (zero CPU workers)
selects the single-device topology. -/
theorem claim_C6_witness :
    (∀ ps : List (String × ℕ × ℕ),
      (⟨some [("nvidia", 0, 50)], 4, true⟩ : Config).platforms = some ps →
        ps ≠ []) ∧
    selectStrategy ⟨some [("nvidia", 0, 50)], 4, true⟩ =
      Strategy.singleDevice := by
  have hp : ∀ ps : List (String × ℕ × ℕ),
      (⟨some [("nvidia", 0, 50)], 4, true⟩ : Config).platforms = some ps →
        ps ≠ [] := by
    intro ps hps
    cases hps
    simp
  exact ⟨hp, (claim_C6 _ hp).2.1 (by constructor <;> rfl)⟩

/-! ### Claim C8: the result aggregator -/

/-- Fold characterization of the aggregator loop starting from an
arbitrary state. -/
theorem aggregate_foldl (short_name : String → String) :
    ∀ (results : List (Option Item)) (st0 : AggState),
      results.foldl (agg_step short_name) st0 =
        ⟨st0.records ++ (results.filterMap id).map
            (fun x => (short_name x.1.1, x.1.2.1)),
         st0.n_reads + (results.filterMap id).length,
         st0.n_bases + ((results.filterMap id).map
            (fun x => x.1.2.1.length)).sum,
         st0.n_events + ((results.filterMap id).map
            (fun x => x.1.2.2.2)).sum,
         st0.t_network + ((results.filterMap id).map (fun x => x.2.1)).sum,
         st0.t_decode + ((results.filterMap id).map (fun x => x.2.2)).sum⟩
  | [], st0 => by simp
  | none :: rs, st0 => by
    rw [List.foldl_cons, show agg_step short_name st0 none = st0 from rfl,
      aggregate_foldl short_name rs st0]
    simp [List.filterMap_cons]
  | some x :: rs, st0 => by
    obtain ⟨⟨fname, basecall, score, n_ev⟩, tn, td⟩ := x
    rw [List.foldl_cons, aggregate_foldl short_name rs]
    simp only [agg_step, List.filterMap_cons, id_eq, List.map_cons,
      List.length_cons, List.sum_cons, AggState.mk.injEq]
    refine ⟨by simp, by omega, by omega, by omega, by ring, by ring⟩

/-- Claim C8: the aggregator writes exactly one fasta record per success,
in arrival order, and nothing for a failure; the read, base, event and
phase-time counters are exact sums over the successes (so a 5-read stream
with 2 failures yields 3 records and a read count of 3); and the
throughput-rate report is skipped when no read succeeded, so its divisions
never run on the zero-success state. -/
theorem claim_C8 :
    (∀ (short_name : String → String) (results : List (Option Item)),
      (aggregate short_name results).records =
        (results.filterMap id).map (fun x => (short_name x.1.1, x.1.2.1)) ∧
      (aggregate short_name results).n_reads =
        (results.filterMap id).length ∧
      (aggregate short_name results).n_bases =
        ((results.filterMap id).map (fun x => x.1.2.1.length)).sum ∧
      (aggregate short_name results).n_events =
        ((results.filterMap id).map (fun x => x.1.2.2.2)).sum ∧
      (aggregate short_name results).t_network =
        ((results.filterMap id).map (fun x => x.2.1)).sum ∧
      (aggregate short_name results).t_decode =
        ((results.filterMap id).map (fun x => x.2.2)).sum ∧
      ((results.filterMap id).length = 0 →
        throughput_report (aggregate short_name results) = none)) ∧
    ((aggregate id [some ((("a", "AC", 1, 2), (1, 1)) : Item), none,
        some ((("b", "ACG", 1, 3), (1, 1)) : Item), none,
        some ((("c", "A", 1, 1), (1, 1)) : Item)]).records.length = 3 ∧
      (aggregate id [some ((("a", "AC", 1, 2), (1, 1)) : Item), none,
        some ((("b", "ACG", 1, 3), (1, 1)) : Item), none,
        some ((("c", "A", 1, 1), (1, 1)) : Item)]).n_reads = 3) := by
  have key : ∀ (short_name : String → String)
      (results : List (Option Item)),
      aggregate short_name results =
        ⟨(results.filterMap id).map (fun x => (short_name x.1.1, x.1.2.1)),
         (results.filterMap id).length,
         ((results.filterMap id).map (fun x => x.1.2.1.length)).sum,
         ((results.filterMap id).map (fun x => x.1.2.2.2)).sum,
         ((results.filterMap id).map (fun x => x.2.1)).sum,
         ((results.filterMap id).map (fun x => x.2.2)).sum⟩ := by
    intro short_name results
    unfold aggregate
    rw [aggregate_foldl]
    simp [initAgg]
  constructor
  · intro short_name results
    rw [key]
    refine ⟨rfl, rfl, rfl, rfl, rfl, rfl, fun hz => ?_⟩
    unfold throughput_report
    rw [if_neg]
    simp [hz]
  · rw [key]
    simp [List.filterMap_cons]

/-! ### List lemmas for the batch pipeline -/

/-- Stripping the `some` wrappers recovers the list. -/
theorem filterMap_id_map_some {α : Type} (l : List α) :
    (l.map some).filterMap id = l := by
  rw [List.filterMap_map]
  simp

/-- A padding block of `none`s contributes no successes. -/
theorem filterMap_id_replicate_none {α : Type} (n : ℕ) :
    (List.replicate n (none : Option α)).filterMap id = [] := by
  induction n with
  | zero => rfl
  | succ k ih => simp [List.replicate_succ, List.filterMap_cons, ih]

/-- A `filterMap` that never drops keeps the length. -/
theorem length_filterMap_of_forall_isSome {α β : Type}
    (f : α → Option β) :
    ∀ l : List α, (∀ a ∈ l, (f a).isSome) →
      (l.filterMap f).length = l.length
  | [], _ => rfl
  | a :: l, h => by
    cases hfa : f a with
    | none => exact absurd (h a (by simp)) (by simp [hfa])
    | some b =>
      simp only [List.filterMap_cons, hfa, List.length_cons]
      rw [length_filterMap_of_forall_isSome f l
        (fun x hx => h x (by simp [hx]))]

/-- Length of a 4-ary zip of equally long lists. -/
theorem zip4_length {α β γ δ : Type} :
    ∀ (as : List α) (bs : List β) (cs : List γ) (ds : List δ),
      bs.length = as.length → cs.length = as.length →
      ds.length = as.length → (zip4 as bs cs ds).length = as.length
  | [], _, _, _, _, _, _ => by simp [zip4]
  | a :: as, [], cs, ds, h1, h2, h3 => by simp at h1
  | a :: as, b :: bs, [], ds, h1, h2, h3 => by simp at h2
  | a :: as, b :: bs, c :: cs, [], h1, h2, h3 => by simp at h3
  | a :: as, b :: bs, c :: cs, d :: ds, h1, h2, h3 => by
    simp only [zip4, List.length_cons]
    rw [zip4_length as bs cs ds (by simpa using h1) (by simpa using h2)
      (by simpa using h3)]

/-- First projection of a 4-ary zip of equally long lists. -/
theorem zip4_map_fst {α β γ δ : Type} :
    ∀ (as : List α) (bs : List β) (cs : List γ) (ds : List δ),
      bs.length = as.length → cs.length = as.length →
      ds.length = as.length →
      (zip4 as bs cs ds).map (fun x => x.1) = as
  | [], _, _, _, _, _, _ => by simp [zip4]
  | a :: as, [], cs, ds, h1, h2, h3 => by simp at h1
  | a :: as, b :: bs, [], ds, h1, h2, h3 => by simp at h2
  | a :: as, b :: bs, c :: cs, [], h1, h2, h3 => by simp at h3
  | a :: as, b :: bs, c :: cs, d :: ds, h1, h2, h3 => by
    simp only [zip4, List.map_cons]
    rw [zip4_map_fst as bs cs ds (by simpa using h1) (by simpa using h2)
      (by simpa using h3)]

/-- Zipping two equal replicates replicates the pair. -/
theorem zip_replicate_replicate {α β : Type} (a : α) (b : β) :
    ∀ n : ℕ, (List.replicate n a).zip (List.replicate n b) =
      List.replicate n (a, b)
  | 0 => rfl
  | n + 1 => by
    simp [List.replicate_succ, zip_replicate_replicate a b n]

/-- A clean outcome that is neither a raised exception nor the
`(None, None)` return carries a matrix. -/
theorem CleanResult.isSome_matOf {c : CleanResult}
    (h1 : ¬ c.isCrash = true) (h2 : ¬ c.isEmptyRes = true) :
    c.matOf.isSome := by
  cases c <;> simp_all [CleanResult.isCrash, CleanResult.isEmptyRes,
    CleanResult.matOf]

/-- Master structure lemma for `process_read_opencl`: whenever the batch
call returns (rather than raising), the result has one entry per requested
read; the successes are exactly the reads surviving feature extraction, in
input order, occupying the leading positions; the `None` failure markers
are appended as a tail block; and every success carries the shared
per-batch timings `total / n_files`. -/
theorem batch_spec {α Ev Tr : Type} (extract : α → Option (String × Mat × Ev))
    (nr : Mat → Mat) (dh : Mat → ℚ × List ℕ) (fet : Mat → Option Tr → Tr)
    (le : Tr → Tr) (dp : Mat → Tr → ℚ × List ℕ) (kts : List String → String)
    (kmers : List String) (fast5_list : List α) (min_prob : ℚ)
    (trans : Option Tr) (fast_decode : Bool) (tN tD : ℚ)
    (ret : List (Option Item))
    (h : process_read_opencl extract nr dh fet le dp kts kmers fast5_list
      min_prob trans fast_decode tN tD = .ok ret) :
    ret.length = fast5_list.length ∧
    (ret.filterMap id).map (fun x => x.1.1) =
      (fast5_list.filterMap extract).map (fun e => e.1) ∧
    ret = (ret.filterMap id).map some ++
      List.replicate
        (fast5_list.length - (fast5_list.filterMap extract).length) none ∧
    ∀ x ∈ ret.filterMap id,
      x.2 = (tN / ((fast5_list.filterMap extract).length : ℚ),
             tD / ((fast5_list.filterMap extract).length : ℚ)) := by
  simp only [process_read_opencl] at h
  split at h
  case isTrue hemp =>
    have hex : fast5_list.filterMap extract = [] := by
      simpa using hemp
    simp only [Except.ok.injEq] at h
    subst h
    refine ⟨by simp, ?_, ?_, ?_⟩
    · rw [filterMap_id_replicate_none, hex]
      simp
    · rw [filterMap_id_replicate_none, hex]
      simp
    · rw [filterMap_id_replicate_none]
      intro x hx
      simp at hx
  case isFalse hemp =>
    split at h
    case isTrue hcr => simp at h
    case isFalse hcr =>
      split at h
      case isTrue hem => simp at h
      case isFalse hem =>
        simp only [Except.ok.injEq] at h
        -- name the intermediate lists of the success path
        have hall : ∀ c ∈ ((fast5_list.filterMap extract).map
            (fun e => e.2.1)).map nr |>.map
              (fun p => clean_post p kmers min_prob),
            (CleanResult.matOf c).isSome := by
          intro c hc
          simp only [List.any_eq_true, not_exists, not_and] at hcr hem
          exact CleanResult.isSome_matOf (hcr c hc) (hem c hc)
        set ex := fast5_list.filterMap extract with hex
        set fl := ex.map (fun e => e.1) with hfl
        set fts := ex.map (fun e => e.2.1) with hfts
        set cleaned := (fts.map nr).map
          (fun p => clean_post p kmers min_prob) with hcleaned
        set pl2 := cleaned.filterMap CleanResult.matOf with hpl2
        set sd := (if fast_decode = true then pl2.map dh
          else pl2.map (fun post => dp post (le (fet post trans)))) with hsd
        have hn_ex : ex.length ≤ fast5_list.length :=
          List.length_filterMap_le extract fast5_list
        have hlcleaned : cleaned.length = ex.length := by
          simp [hcleaned, hfts]
        have hlpl2 : pl2.length = ex.length := by
          rw [hpl2, length_filterMap_of_forall_isSome _ _ hall]
          exact hlcleaned
        have hlsd : sd.length = ex.length := by
          rw [hsd]
          split <;> simpa using hlpl2
        have hlfl : fl.length = ex.length := by simp [hfl]
        have hdata : (zip4 fl
            ((sd.map Prod.snd).map (fun states =>
              states.map (fun i => kmers.getD i "")) |>.map kts)
            (sd.map Prod.fst) (fts.map List.length)).length = fl.length :=
          zip4_length _ _ _ _ (by simp [hlsd, hlfl]) (by simp [hlsd, hlfl])
            (by simp [hfts, hlfl])
        rw [zip_replicate_replicate] at h
        set L := (zip4 fl
            ((sd.map Prod.snd).map (fun states =>
              states.map (fun i => kmers.getD i "")) |>.map kts)
            (sd.map Prod.fst) (fts.map List.length)).zip
          (List.replicate fl.length
            (tN / (fl.length : ℚ), tD / (fl.length : ℚ))) with hL
        have hlL : L.length = ex.length := by
          rw [hL, List.length_zip, hdata]
          simp [hlfl]
        have hfm : ret.filterMap id = L := by
          rw [← h, List.filterMap_append, filterMap_id_map_some,
            filterMap_id_replicate_none, List.append_nil]
        refine ⟨?_, ?_, ?_, ?_⟩
        · rw [← h, List.length_append, List.length_map, hlL,
            List.length_replicate]
          omega
        · rw [hfm, hL, show (fun x : Item => x.1.1) =
            (fun y => y.1) ∘ Prod.fst from rfl, ← List.map_map,
            List.map_fst_zip _ _ (by rw [hdata]; simp),
            zip4_map_fst _ _ _ _ (by simp [hlsd, hlfl])
              (by simp [hlsd, hlfl]) (by simp [hfts, hlfl]), hfl]
        · rw [hfm, ← h, hlfl]
        · intro x hx
          rw [hfm, hL] at hx
          have := (List.of_mem_zip hx).2
          have hx2 := List.eq_of_mem_replicate this
          rw [hx2, hlfl]

/-! ### Claims C1 and C9: the GPU batch pipeline -/

/-- Concrete extraction oracle for the batch examples: read "A" fails
feature extraction, every other read yields the matrix `[[1, 1, 0]]`. -/
def extractAB : String → Option (String × Mat × Unit) :=
  fun s => if s = "A" then none else some (s, [[1, 1, 0]], ())

/-- Concrete evaluation of the batch pipeline on the two-read batch
`["A", "B"]` where "A" fails extraction: the survivor "B" lands at
position 0 and the single `None` failure marker is appended at the end
(position 1), even though the read that failed sits at position 0. -/
theorem batch_eval_AB :
    process_read_opencl extractAB id (fun _ => ((0 : ℚ), [0]))
      (fun _ _ => ()) id (fun _ _ => ((0 : ℚ), [0])) (fun _ => "s")
      ["A", "C", "X"] ["A", "B"] 0 none true 3 4 =
      Except.ok [some ((("B", "s", 0, 1), (3, 4)) : Item), none] := by
  have hex : ["A", "B"].filterMap extractAB =
      [("B", [[1, 1, 0]], ())] := by decide
  have hclean : clean_post ([[1, 1, 0]] : Mat) ["A", "C", "X"] 0 =
      CleanResult.ok ((survivors [[1, 1, 0]]).map (norm_floor_row 0))
        (good_mask [[1, 1, 0]]) :=
    clean_post_eq_ok "X" (by decide) (by decide) (by decide)
  simp only [process_read_opencl, hex]
  norm_num [hclean, CleanResult.isCrash, CleanResult.isEmptyRes,
    CleanResult.matOf, zip4, List.filterMap_cons]

/-- Claim C1, counterexample.  In the batch `["A", "B"]`, read "A" (at
position 0) fails feature extraction; the claim puts the `Failure` marker
at position 0 and "B"'s success at position 1, but the code returns the
success of "B" at position 0 and pads the `None` at the tail position 1:
failure markers do not occupy the failed positions, and a success does not
sit at the position of the read that produced it. -/
theorem claim_C1_counterexample :
    extractAB "A" = none ∧
    process_read_opencl extractAB id (fun _ => ((0 : ℚ), [0]))
      (fun _ _ => ()) id (fun _ _ => ((0 : ℚ), [0])) (fun _ => "s")
      ["A", "C", "X"] ["A", "B"] 0 none true 3 4 =
      Except.ok [some ((("B", "s", 0, 1), (3, 4)) : Item), none] :=
  ⟨rfl, batch_eval_AB⟩

/-- Claim C1, amended.  The batch pipeline returns exactly N results for N
requested reads, but the `Failure` markers are appended as a tail block
(lines 307-309) rather than interleaved at the failed positions: the
successes are the reads surviving feature extraction, in input order,
occupying the leading positions.  Position correspondence therefore holds
only when the failed reads form a suffix of the batch.  (A read whose
cleaning comes out empty yields no `Failure` marker at all — the batch
call raises instead, which is why the theorem conditions on a returning
call.) -/
theorem claim_C1_amended {α Ev Tr : Type}
    (extract : α → Option (String × Mat × Ev))
    (nr : Mat → Mat) (dh : Mat → ℚ × List ℕ) (fet : Mat → Option Tr → Tr)
    (le : Tr → Tr) (dp : Mat → Tr → ℚ × List ℕ) (kts : List String → String)
    (kmers : List String) (fast5_list : List α) (min_prob : ℚ)
    (trans : Option Tr) (fast_decode : Bool) (tN tD : ℚ)
    (ret : List (Option Item))
    (h : process_read_opencl extract nr dh fet le dp kts kmers fast5_list
      min_prob trans fast_decode tN tD = .ok ret) :
    ret.length = fast5_list.length ∧
    ret = (ret.filterMap id).map some ++
      List.replicate
        (fast5_list.length - (fast5_list.filterMap extract).length) none ∧
    (ret.filterMap id).map (fun x => x.1.1) =
      (fast5_list.filterMap extract).map (fun e => e.1) := by
  obtain ⟨h1, h2, h3, -⟩ := batch_spec extract nr dh fet le dp kts kmers
    fast5_list min_prob trans fast_decode tN tD ret h
  exact ⟨h1, h3, h2⟩

/-- Claim C1, witness for the amended theorem at the concrete two-read
batch. -/
theorem claim_C1_amended_witness :
    process_read_opencl extractAB id (fun _ => ((0 : ℚ), [0]))
      (fun _ _ => ()) id (fun _ _ => ((0 : ℚ), [0])) (fun _ => "s")
      ["A", "C", "X"] ["A", "B"] 0 none true 3 4 =
      Except.ok [some ((("B", "s", 0, 1), (3, 4)) : Item), none] ∧
    ([some ((("B", "s", 0, 1), (3, 4)) : Item), none].length = 2 ∧
     [some ((("B", "s", 0, 1), (3, 4)) : Item), none] =
       ([some ((("B", "s", 0, 1), (3, 4)) : Item),
         none].filterMap id).map some ++
       List.replicate
         (["A", "B"].length - (["A", "B"].filterMap extractAB).length)
         none ∧
     (([some ((("B", "s", 0, 1), (3, 4)) : Item),
         none].filterMap id).map (fun x => x.1.1) =
       (["A", "B"].filterMap extractAB).map (fun e => e.1))) :=
  ⟨batch_eval_AB,
    claim_C1_amended extractAB id (fun _ => ((0 : ℚ), [0])) (fun _ _ => ())
      id (fun _ _ => ((0 : ℚ), [0])) (fun _ => "s") ["A", "C", "X"]
      ["A", "B"] 0 none true 3 4 _ batch_eval_AB⟩

/-- Claim C9: all successes of one batch carry identical per-read
timings — the batch's total network wall time divided by the number of
reads that survived feature extraction, and likewise for the decode
phase — and those per-read timings sum back to the measured batch phase
totals; no timing is measured for an individual read. -/
theorem claim_C9 {α Ev Tr : Type}
    (extract : α → Option (String × Mat × Ev))
    (nr : Mat → Mat) (dh : Mat → ℚ × List ℕ) (fet : Mat → Option Tr → Tr)
    (le : Tr → Tr) (dp : Mat → Tr → ℚ × List ℕ) (kts : List String → String)
    (kmers : List String) (fast5_list : List α) (min_prob : ℚ)
    (trans : Option Tr) (fast_decode : Bool) (tN tD : ℚ)
    (ret : List (Option Item))
    (h : process_read_opencl extract nr dh fet le dp kts kmers fast5_list
      min_prob trans fast_decode tN tD = .ok ret) :
    (∀ x ∈ ret.filterMap id,
      x.2.1 = tN / ((fast5_list.filterMap extract).length : ℚ) ∧
      x.2.2 = tD / ((fast5_list.filterMap extract).length : ℚ)) ∧
    (0 < (ret.filterMap id).length →
      ((ret.filterMap id).map (fun x => x.2.1)).sum = tN ∧
      ((ret.filterMap id).map (fun x => x.2.2)).sum = tD) := by
  obtain ⟨-, h2, -, h4⟩ := batch_spec extract nr dh fet le dp kts kmers
    fast5_list min_prob trans fast_decode tN tD ret h
  have hn : (ret.filterMap id).length =
      (fast5_list.filterMap extract).length := by
    have := congrArg List.length h2
    simpa using this
  refine ⟨fun x hx => ?_, fun hpos => ?_⟩
  · rw [h4 x hx]
    exact ⟨rfl, rfl⟩
  · have hne : ((fast5_list.filterMap extract).length : ℚ) ≠ 0 := by
      rw [← hn]
      exact_mod_cast Nat.pos_iff_ne_zero.mp hpos
    constructor
    · have hc : (ret.filterMap id).map (fun x => x.2.1) =
          List.replicate (ret.filterMap id).length
            (tN / ((fast5_list.filterMap extract).length : ℚ)) := by
        rw [← List.map_const']
        exact List.map_congr_left (fun x hx => by rw [h4 x hx])
      rw [hc, List.sum_replicate, nsmul_eq_mul, hn,
        mul_div_cancel₀ _ hne]
    · have hc : (ret.filterMap id).map (fun x => x.2.2) =
          List.replicate (ret.filterMap id).length
            (tD / ((fast5_list.filterMap extract).length : ℚ)) := by
        rw [← List.map_const']
        exact List.map_congr_left (fun x hx => by rw [h4 x hx])
      rw [hc, List.sum_replicate, nsmul_eq_mul, hn,
        mul_div_cancel₀ _ hne]

/-- Claim C9, witness at the concrete two-read batch: the single survivor
carries timings `3/1` and `4/1`, and their sums are the batch totals. -/
theorem claim_C9_witness :
    process_read_opencl extractAB id (fun _ => ((0 : ℚ), [0]))
      (fun _ _ => ()) id (fun _ _ => ((0 : ℚ), [0])) (fun _ => "s")
      ["A", "C", "X"] ["A", "B"] 0 none true 3 4 =
      Except.ok [some ((("B", "s", 0, 1), (3, 4)) : Item), none] ∧
    (∀ x ∈ [some ((("B", "s", 0, 1), (3, 4)) : Item), none].filterMap id,
      x.2.1 = (3 : ℚ) / ((["A", "B"].filterMap extractAB).length : ℚ) ∧
      x.2.2 = (4 : ℚ) / ((["A", "B"].filterMap extractAB).length : ℚ)) :=
  ⟨batch_eval_AB,
    (claim_C9 extractAB id (fun _ => ((0 : ℚ), [0])) (fun _ _ => ()) id
      (fun _ _ => ((0 : ℚ), [0])) (fun _ => "s") ["A", "C", "X"]
      ["A", "B"] 0 none true 3 4 _ batch_eval_AB).1⟩

/-! ### Claim C7: the single fixed-capacity device path -/

/-- Chunking partitions the input: flattening the chunks in order gives
back the input stream. -/
theorem chunksOf_flatten {α : Type} (n : ℕ) (xs : List α) :
    (chunksOf n xs).flatten = xs := by
  have H : ∀ (k : ℕ) (ys : List α), ys.length ≤ k →
      (chunksOf n ys).flatten = ys := by
    intro k
    induction k with
    | zero =>
      intro ys hy
      have h0 : ys = [] := List.length_eq_zero.mp (Nat.le_zero.mp hy)
      subst h0
      rw [chunksOf.eq_def]
      simp
    | succ k ih =>
      intro ys hy
      rw [chunksOf.eq_def]
      by_cases hys : ys.isEmpty = true
      · rw [dif_pos hys]
        rw [List.isEmpty_iff] at hys
        simp [hys]
      · rw [dif_neg hys]
        by_cases hn : n = 0
        · rw [dif_pos hn]
          simp
        · rw [dif_neg hn]
          have hne : ys ≠ [] := by simpa using hys
          have hlt : (ys.drop n).length ≤ k := by
            simp only [List.length_drop]
            have h1 : 0 < ys.length := List.length_pos.mpr hne
            have h2 : 0 < n := Nat.pos_of_ne_zero hn
            omega
          simp only [List.flatten_cons, ih (ys.drop n) hlt]
          exact List.take_append_drop n ys
  exact H xs.length xs le_rfl

/-- Chaining the batch worker over a chunk list: the flattened result has
one entry per input read, and its successes are the extraction survivors
of the flattened input, in order. -/
theorem imap_chain_batch {α Ev Tr : Type}
    (extract : α → Option (String × Mat × Ev))
    (nr : Mat → Mat) (dh : Mat → ℚ × List ℕ) (fet : Mat → Option Tr → Tr)
    (le : Tr → Tr) (dp : Mat → Tr → ℚ × List ℕ) (kts : List String → String)
    (kmers : List String) (min_prob : ℚ) (trans : Option Tr)
    (fast_decode : Bool) (tN tD : ℚ) :
    ∀ (chunks : List (List α)) (ret : List (Option Item)),
      imap_chain (fun c => process_read_opencl extract nr dh fet le dp kts
        kmers c min_prob trans fast_decode tN tD) chunks = .ok ret →
      ret.length = chunks.flatten.length ∧
      (ret.filterMap id).map (fun x => x.1.1) =
        (chunks.flatten.filterMap extract).map (fun e => e.1)
  | [], ret, h => by
    simp only [imap_chain, Except.ok.injEq] at h
    subst h
    simp
  | c :: cs, ret, h => by
    simp only [imap_chain] at h
    split at h
    case h_1 => simp at h
    case h_2 r hw =>
      split at h
      case h_1 => simp at h
      case h_2 rs hrec =>
        simp only [Except.ok.injEq] at h
        subst h
        obtain ⟨ih1, ih2⟩ := imap_chain_batch extract nr dh fet le dp kts
          kmers min_prob trans fast_decode tN tD cs rs hrec
        obtain ⟨b1, b2, -, -⟩ := batch_spec extract nr dh fet le dp kts
          kmers c min_prob trans fast_decode tN tD r hw
        constructor
        · simp [ih1, b1]
        · rw [List.filterMap_append, List.map_append, ih2, b2,
            List.flatten_cons, List.filterMap_append, List.map_append]

/-- Claim C7, counterexample.  Feeding the two-read stream `["A", "B"]`
through the single-device path with chunk size 2, where "A" fails
extraction, yields `[Success("B"), Failure]`: position 0 does not
correspond to input read "A", so within-chunk positional correspondence
fails as soon as a non-trailing read of the chunk fails. -/
theorem claim_C7_counterexample :
    extractAB "A" = none ∧
    single_device_results
      (fun chunk => process_read_opencl extractAB id
        (fun _ => ((0 : ℚ), [0])) (fun _ _ => ()) id
        (fun _ _ => ((0 : ℚ), [0])) (fun _ => "s") ["A", "C", "X"] chunk
        0 none true 3 4) 2 ["A", "B"] =
      Except.ok [some ((("B", "s", 0, 1), (3, 4)) : Item), none] := by
  refine ⟨rfl, ?_⟩
  have hch : chunksOf 2 ["A", "B"] = [["A", "B"]] := by
    rw [chunksOf.eq_def]
    norm_num
    rw [chunksOf.eq_def]
    norm_num
  unfold single_device_results
  rw [hch]
  simp only [imap_chain, batch_eval_AB]
  simp

/-- Claim C7, amended.  The single-device path returns one result per
input read, flattened in chunk order; the successes appear exactly in the
input order of the reads surviving extraction, but each chunk's failure
markers are padded at that chunk's end, so exact positional correspondence
holds only when every read of a chunk survives (e.g. `[A, B, C]` all
succeeding with chunk size 3 does yield positions `[A, B, C]`). -/
theorem claim_C7_amended {α Ev Tr : Type}
    (extract : α → Option (String × Mat × Ev))
    (nr : Mat → Mat) (dh : Mat → ℚ × List ℕ) (fet : Mat → Option Tr → Tr)
    (le : Tr → Tr) (dp : Mat → Tr → ℚ × List ℕ) (kts : List String → String)
    (kmers : List String) (min_prob : ℚ) (trans : Option Tr)
    (fast_decode : Bool) (tN tD : ℚ) (n : ℕ) (files : List α)
    (ret : List (Option Item))
    (h : single_device_results
      (fun c => process_read_opencl extract nr dh fet le dp kts kmers c
        min_prob trans fast_decode tN tD) n files = .ok ret) :
    ret.length = files.length ∧
    (ret.filterMap id).map (fun x => x.1.1) =
      (files.filterMap extract).map (fun e => e.1) := by
  unfold single_device_results at h
  obtain ⟨h1, h2⟩ := imap_chain_batch extract nr dh fet le dp kts kmers
    min_prob trans fast_decode tN tD (chunksOf n files) ret h
  rw [chunksOf_flatten] at h1 h2
  exact ⟨h1, h2⟩

/-- Claim C7, witness for the amended theorem at the concrete two-read
stream. -/
theorem claim_C7_amended_witness :
    single_device_results
      (fun chunk => process_read_opencl extractAB id
        (fun _ => ((0 : ℚ), [0])) (fun _ _ => ()) id
        (fun _ _ => ((0 : ℚ), [0])) (fun _ => "s") ["A", "C", "X"] chunk
        0 none true 3 4) 2 ["A", "B"] =
      Except.ok [some ((("B", "s", 0, 1), (3, 4)) : Item), none] ∧
    ([some ((("B", "s", 0, 1), (3, 4)) : Item), none].length =
      ["A", "B"].length ∧
     ([some ((("B", "s", 0, 1), (3, 4)) : Item), none].filterMap id).map
        (fun x => x.1.1) =
      (["A", "B"].filterMap extractAB).map (fun e => e.1)) := by
  have heval : single_device_results
      (fun chunk => process_read_opencl extractAB id
        (fun _ => ((0 : ℚ), [0])) (fun _ _ => ()) id
        (fun _ _ => ((0 : ℚ), [0])) (fun _ => "s") ["A", "C", "X"] chunk
        0 none true 3 4) 2 ["A", "B"] =
      Except.ok [some ((("B", "s", 0, 1), (3, 4)) : Item), none] := by
    have hch : chunksOf 2 ["A", "B"] = [["A", "B"]] := by
      rw [chunksOf.eq_def]
      norm_num
      rw [chunksOf.eq_def]
      norm_num
    unfold single_device_results
    rw [hch]
    simp only [imap_chain, batch_eval_AB]
    simp
  exact ⟨heval, claim_C7_amended extractAB id (fun _ => ((0 : ℚ), [0]))
    (fun _ _ => ()) id (fun _ _ => ((0 : ℚ), [0])) (fun _ => "s")
    ["A", "C", "X"] 0 none true 3 4 2 ["A", "B"] _ heval⟩

end Nanonet
